import Mathlib

/-
Shallow embedding of `checkov/common/graph/variable_rendering/renderer.py`
(class `VariableRenderer`): the iterative graph-variable-rendering engine.

The file under verification contains the abstract engine only.  Collaborators
that live outside that file (the `Edge` record, `calculate_hash`, the
`LocalGraph` query surface) are modelled from the specification, each marked
with a doc comment starting `Modelled from the spec:`.  Everything else is a
direct translation of the Python source.
-/

namespace Checkov

/-- Modelled from the spec: the `Edge` record lives in
`checkov.common.graph.graph_builder`, outside the verified file.  Spec section 3:
a directed relation `(origin, destination, label)`; equality is by the full
tuple.  Vertex references are opaque integer identifiers, modelled as `Nat`
indices. -/
structure Edge where
  origin : Nat
  dest : Nat
  label : String
deriving DecidableEq

/-- Modelled from the spec: `calculate_hash` comes from
`checkov.common.graph.graph_builder.utils`, outside the verified file.  Spec
section 4.2 says the partition key is a hash of the pair (origin, label) and a
hash is only an acceleration structure.  It is modelled as an injective
deterministic string hash (the identity function), which is the assumption most
favorable to keeping distinct keys apart: any collision exhibited below is
caused by the key string itself, not by the hash. -/
def calculate_hash (s : String) : String := s

/-- The bucket key computed at renderer.py line 106:
`calculate_hash(f"<origin><label>")`, i.e. the hash of the decimal rendering of
the origin index concatenated with the label. -/
def edgeKey (e : Edge) : String := calculate_hash (toString e.origin ++ e.label)

/-- One step of the dict-building loop of `group_edges_by_origin_and_label`
(renderer.py lines 105-109).  The Python dict keyed by the hash string, with
keys in insertion order, is modelled as an association list with pairwise
distinct keys; a new key is appended at the end, an existing key has the edge
appended to its bucket. -/
def addToGroups : List (String × List Edge) → Edge → List (String × List Edge)
  | [], e => [(edgeKey e, [e])]
  | (k, es) :: rest, e =>
    if k = edgeKey e then (k, es ++ [e]) :: rest
    else (k, es) :: addToGroups rest e

/-- `group_edges_by_origin_and_label` (renderer.py lines 102-110): fold the
edges into hash-keyed buckets and return `list(edge_groups.values())`, the
buckets in key-insertion order. -/
def group_edges_by_origin_and_label (edges : List Edge) : List (List Edge) :=
  (edges.foldl addToGroups []).map Prod.snd

/-- Invariant of the bucket association list built by `addToGroups`: every
bucket is non-empty and holds only edges whose key is the bucket key. -/
def HomogBuckets (bs : List (String × List Edge)) : Prop :=
  ∀ p ∈ bs, p.2 ≠ [] ∧ ∀ e ∈ p.2, edgeKey e = p.1

/-- The value cache of the engine, `self.replace_cache` (renderer.py line 37).
Python lists hold references to heap objects, so the embedding separates the
heap of dict objects from the per-vertex slot references. -/
structure ReplaceCache where
  objects : List (List (String × String))
  slots : List Nat

/-- Embedding of `self.replace_cache = [dict()] * len(local_graph.vertices)`
(renderer.py line 37).  Python list repetition evaluates the dict display once
and repeats the reference, so the heap holds a single empty dict object and
every slot points at it. -/
def initReplaceCache (n : Nat) : ReplaceCache :=
  { objects := [[]], slots := List.replicate n 0 }

/-- Mutating the dict object reached through the slot of vertex `v`:
`self.replace_cache[v][key] = val` in Python updates the heap object the slot
refers to, in place. -/
def ReplaceCache.write (c : ReplaceCache) (v : Nat) (key val : String) : ReplaceCache :=
  let r := c.slots.getD v 0
  { objects := c.objects.set r ((c.objects.getD r []) ++ [(key, val)]), slots := c.slots }

/-- Reading the contents of the dict object reached through the slot of
vertex `v`. -/
def ReplaceCache.read (c : ReplaceCache) (v : Nat) : List (String × String) :=
  c.objects.getD (c.slots.getD v 0) []

/-- `_edge_evaluation_task` (renderer.py lines 93-96): takes a singleton list
of edge groups, runs the abstract evaluation strategy on `edges[0]` and
returns it.  The strategy may raise, modelled by `Except`. -/
def edge_evaluation_task {ε : Type} (strat : List Edge → Except ε Unit)
    (edges : List (List Edge)) : Except ε (List Edge) :=
  let inner_edges := edges.headD []
  match strat inner_edges with
  | Except.ok _ => Except.ok inner_edges
  | Except.error e => Except.error e

/-- The sequential dispatch path (renderer.py lines 59-61):
`for edge_group in edges_groups: self._edge_evaluation_task([edge_group])`.
An exception raised by the strategy propagates out of the plain `for` loop at
once.  The embedding returns the list of groups actually attempted (in order,
including the failing one) together with the surfaced error, if any. -/
def sequentialDispatch {ε : Type} (strat : List Edge → Except ε Unit) :
    List (List Edge) → List (List Edge) × Option ε
  | [] => ([], none)
  | g :: gs =>
    match edge_evaluation_task strat [g] with
    | Except.error e => ([g], some e)
    | Except.ok _ =>
      let r := sequentialDispatch strat gs
      (g :: r.1, r.2)

/-- Modelled from the spec: the graph collaborator (`LocalGraph`) is outside
the verified file; spec section 6 gives its query surface.  Vertices are the
indices `0 .. n-1`; `edges` is the edge store. -/
structure LocalGraph where
  n : Nat
  edges : List Edge

/-- Modelled from the spec: `local_graph.out_edges.get(v, [])`, the outgoing
edges of vertex `v`. -/
def LocalGraph.out_edges (g : LocalGraph) (v : Nat) : List Edge :=
  g.edges.filter (fun e => decide (e.origin = v))

/-- Modelled from the spec: out-degree of a vertex, used by the degree query. -/
def LocalGraph.out_degree (g : LocalGraph) (v : Nat) : Nat :=
  (g.out_edges v).length

/-- Modelled from the spec: in-degree of a vertex, used by the degree query. -/
def LocalGraph.in_degree (g : LocalGraph) (v : Nat) : Nat :=
  (g.edges.filter (fun e => decide (e.dest = v))).length

/-- Modelled from the spec (section 6):
`vertices_with_degree(out_degree_predicate, in_degree_predicate)`, the vertices
whose degrees satisfy both predicates, in index order. -/
def LocalGraph.get_vertices_with_degrees_conditions (g : LocalGraph)
    (outCond inCond : Nat → Bool) : List Nat :=
  (List.range g.n).filter (fun v => outCond (g.out_degree v) && inCond (g.in_degree v))

/-- Modelled from the spec (section 6): `in_edges(vertex_refs)`, all edges
entering the given vertices, gathered per vertex in the order given. -/
def LocalGraph.get_in_edges (g : LocalGraph) (vs : List Nat) : List Edge :=
  vs.flatMap (fun v => g.edges.filter (fun e => decide (e.dest = v)))

/-- Lookup `self.done_edges_by_origin_vertex.get(v, [])`.  Edges are inserted
into that dict keyed by their own origin (renderer.py lines 62-66), so the
bucket for `v` is exactly the done edges whose origin is `v`; the dict is
therefore modelled by the flat list of all recorded done edges. -/
def doneFor (done : List Edge) (v : Nat) : List Edge :=
  done.filter (fun e => decide (e.origin = v))

/-- Embedding of `list(set(...))` at renderer.py lines 74-82.  A Python set
iterates in an unspecified order; the model keeps the first occurrence of each
edge, a deterministic representative.  No claim below depends on the order of
the deduplicated list. -/
def dedupFirst (l : List Edge) : List Edge :=
  l.foldl (fun acc e => if e ∈ acc then acc else acc ++ [e]) []

/-- The control state of the main rendering loop: the fields of
`render_variables_from_local_graph` that do not belong to the pluggable
evaluation strategy.  `dispatched` accumulates every edge group handed to the
dispatcher, `loops` counts executed loop bodies. -/
structure ControlState where
  endVertices : List Nat
  done : List Edge
  edgesToRender : List Edge
  loops : Nat
  dispatched : List (List Edge)
deriving DecidableEq

/-- Full loop state: control state plus the strategy-private state `σ`
(the vertex configurations and value cache the abstract
`evaluate_vertex_attribute_from_edge` mutates; opaque to the engine). -/
structure LoopState (σ : Type) where
  ctrl : ControlState
  stratState : σ

/-- One execution of the `while` body (renderer.py lines 49-83), control part:
group the pending edges, record every pending edge as done for its origin
(lines 62-66), append to the frontier every origin whose outgoing edges are all
done (lines 68-72), recompute the pending edges as the deduplicated not-yet-done
in-edges of the frontier (lines 73-82), and increment the loop counter. -/
def ctrlStep (g : LocalGraph) (c : ControlState) : ControlState :=
  let groups := group_edges_by_origin_and_label c.edgesToRender
  let done := c.done ++ c.edgesToRender
  let endV := c.endVertices ++
    (c.edgesToRender.filter
      (fun e => (g.out_edges e.origin).all (fun oe => decide (oe ∈ doneFor done e.origin)))).map
      Edge.origin
  let etr := dedupFirst
    ((g.get_in_edges endV).filter (fun e => !decide (e ∈ doneFor done e.origin)))
  { endVertices := endV, done := done, edgesToRender := etr,
    loops := c.loops + 1, dispatched := c.dispatched ++ groups }

/-- One execution of the `while` body, full state: the dispatcher hands each
group of the current pending set to the strategy (renderer.py lines 52-61; the
sequential path runs the groups in order), which updates only its private
state; the control bookkeeping is `ctrlStep`. -/
def stepBody (g : LocalGraph) {σ : Type} (strat : σ → List Edge → σ)
    (s : LoopState σ) : LoopState σ :=
  { ctrl := ctrlStep g s.ctrl,
    stratState := (group_edges_by_origin_and_label s.ctrl.edgesToRender).foldl strat s.stratState }

/-- `MAX_NUMBER_OF_LOOPS` (renderer.py line 29). -/
def MAX_NUMBER_OF_LOOPS : Nat := 50

/-- The `while len(edges_to_render) > 0` loop (renderer.py lines 48-86), with
the bound check `loops >= self.MAX_NUMBER_OF_LOOPS` after each body as in lines
83-86.  The returned Bool records whether the bound-reached warning of line 85
was logged.  The fuel argument makes the recursion structural; called with fuel
`MAX_NUMBER_OF_LOOPS` and loop counter 0, the fuel can never run out before the
bound check fires, so the fuel-exhausted branch is unreachable. -/
def renderLoopAux (g : LocalGraph) {σ : Type} (strat : σ → List Edge → σ) :
    Nat → LoopState σ → LoopState σ × Bool
  | 0, s => (s, false)
  | f + 1, s =>
    if s.ctrl.edgesToRender.isEmpty then (s, false)
    else
      let s1 := stepBody g strat s
      if MAX_NUMBER_OF_LOOPS ≤ s1.ctrl.loops then (s1, true)
      else renderLoopAux g strat f s1

/-- renderer.py lines 41-43: the initial frontier, vertices with out-degree 0
and in-degree greater than 0, with the degree conditions passed exactly as the
two lambdas of the source. -/
def initialEndVertices (g : LocalGraph) : List Nat :=
  g.get_vertices_with_degrees_conditions
    (fun degree => decide (degree = 0)) (fun degree => decide (degree > 0))

/-- renderer.py line 46: the initial pending set, all edges entering the
initial frontier. -/
def initialPending (g : LocalGraph) : List Edge :=
  g.get_in_edges (initialEndVertices g)

/-- The state in which the main loop starts: initial frontier, no done edges,
initial pending edges, loop counter 0, nothing dispatched. -/
def initLoopState (g : LocalGraph) {σ : Type} (s0 : σ) : LoopState σ :=
  { ctrl := { endVertices := initialEndVertices g, done := [],
              edgesToRender := initialPending g, loops := 0, dispatched := [] },
    stratState := s0 }

/-- Outcome of one rendering pass.  `warnedBound` records the line-85 warning;
`updatedConfigs` records the call `self.local_graph.update_vertices_configs()`
(line 88) and `fallbackInvoked` the call `self.evaluate_non_rendered_values()`
(line 90), both external effects modelled as invocation flags. -/
structure RenderOutcome (σ : Type) where
  final : LoopState σ
  warnedBound : Bool
  updatedConfigs : Bool
  fallbackInvoked : Bool

/-- `render_variables_from_local_graph` (renderer.py lines 39-91): compute the
initial frontier and pending set, run the bounded main loop, then
unconditionally materialize the vertex configurations and invoke the fallback
pass.  The function is total: it always returns normally. -/
def render_variables_from_local_graph (g : LocalGraph) {σ : Type}
    (strat : σ → List Edge → σ) (s0 : σ) : RenderOutcome σ :=
  let res := renderLoopAux g strat MAX_NUMBER_OF_LOOPS (initLoopState g s0)
  { final := res.1, warnedBound := res.2, updatedConfigs := true, fallbackInvoked := true }

/-- A strategy that records nothing: the engine control flow never reads the
strategy state, so this is the canonical instantiation for concrete runs. -/
def trivStrat : Unit → List Edge → Unit := fun _ _ => ()

/-- The two-vertex cycle of spec section 8: `A -> B` and `B -> A`, vertices
0 and 1, no externally known value anywhere. -/
def twoCycle : LocalGraph :=
  { n := 2, edges := [⟨0, 1, "x"⟩, ⟨1, 0, "x"⟩] }

/-- The four-vertex chain of spec section 8: `A -> B -> C -> D`, vertices
0, 1, 2, 3, where only the sink `D` is known. -/
def chain4 : LocalGraph :=
  { n := 4, edges := [⟨0, 1, "x"⟩, ⟨1, 2, "x"⟩, ⟨2, 3, "x"⟩] }

/-- A 53-vertex chain `0 -> 1 -> ... -> 52`: resolving it needs 52 iterations,
so the 50-iteration bound is reached with pending edges remaining. -/
def chain53 : LocalGraph :=
  { n := 53, edges := (List.range 52).map (fun i => ⟨i, i + 1, ""⟩) }

/-- A fallible strategy that fails exactly on the group containing the single
edge `0 -> 1` labelled `a`. -/
def failStrat : List Edge → Except String Unit :=
  fun gEdges => if gEdges = [⟨0, 1, "a"⟩] then Except.error "boom" else Except.ok ()

/-! Helper lemmas about the bucket fold of `group_edges_by_origin_and_label`. -/

theorem foldl_addToGroups_homog_key (k : String) :
    ∀ (es : List Edge) (pre : List Edge) (tl : List (String × List Edge)),
      (∀ e ∈ es, edgeKey e = k) →
      List.foldl addToGroups ((k, pre) :: tl) es = (k, pre ++ es) :: tl := by
  intro es
  induction es with
  | nil => intro pre tl _; simp
  | cons e es ih =>
    intro pre tl h
    have hk : edgeKey e = k := h e (List.mem_cons_self e es)
    simp only [List.foldl_cons, addToGroups]
    rw [if_pos hk.symm]
    rw [ih (pre ++ [e]) tl (fun x hx => h x (List.mem_cons_of_mem e hx))]
    simp

theorem foldl_addToGroups_notin_key (k : String) (b : List Edge) :
    ∀ (es : List Edge) (tl : List (String × List Edge)),
      (∀ e ∈ es, edgeKey e ≠ k) →
      List.foldl addToGroups ((k, b) :: tl) es = (k, b) :: List.foldl addToGroups tl es := by
  intro es
  induction es with
  | nil => intro tl _; rfl
  | cons e es ih =>
    intro tl h
    have hk : edgeKey e ≠ k := h e (List.mem_cons_self e es)
    simp only [List.foldl_cons, addToGroups]
    rw [if_neg (fun hkk => hk hkk.symm)]
    exact ih (addToGroups tl e) (fun x hx => h x (List.mem_cons_of_mem e hx))

theorem addToGroups_homog {bs : List (String × List Edge)} (e : Edge)
    (h : HomogBuckets bs) : HomogBuckets (addToGroups bs e) := by
  induction bs with
  | nil =>
    intro p hp
    simp only [addToGroups, List.mem_singleton] at hp
    subst hp
    exact ⟨by simp, by simp⟩
  | cons q rest ih =>
    obtain ⟨k, es⟩ := q
    by_cases hk : k = edgeKey e
    · intro p hp
      simp only [addToGroups, if_pos hk] at hp
      rcases List.mem_cons.mp hp with h1 | h2
      · subst h1
        refine ⟨by simp, ?_⟩
        intro x hx
        rcases List.mem_append.mp hx with hx1 | hx2
        · exact (h (k, es) (List.mem_cons_self _ _)).2 x hx1
        · rw [List.mem_singleton] at hx2; subst hx2; exact hk.symm
      · exact h p (List.mem_cons_of_mem _ h2)
    · intro p hp
      simp only [addToGroups, if_neg hk] at hp
      rcases List.mem_cons.mp hp with h1 | h2
      · subst h1; exact h (k, es) (List.mem_cons_self _ _)
      · exact ih (fun q hq => h q (List.mem_cons_of_mem _ hq)) p h2

theorem addToGroups_keys (bs : List (String × List Edge)) (e : Edge) :
    (addToGroups bs e).map Prod.fst =
      if edgeKey e ∈ bs.map Prod.fst then bs.map Prod.fst
      else bs.map Prod.fst ++ [edgeKey e] := by
  induction bs with
  | nil => simp [addToGroups]
  | cons q rest ih =>
    obtain ⟨k, es⟩ := q
    by_cases hk : k = edgeKey e
    · subst hk
      simp [addToGroups, List.mem_cons]
    · have hk2 : edgeKey e ≠ k := fun hkk => hk hkk.symm
      simp only [addToGroups, if_neg hk, List.map_cons, ih]
      by_cases hm : edgeKey e ∈ rest.map Prod.fst
      · simp [hm, List.mem_cons]
      · simp [hm, List.mem_cons, hk2]

theorem addToGroups_nodup_keys {bs : List (String × List Edge)} (e : Edge)
    (h : (bs.map Prod.fst).Nodup) : ((addToGroups bs e).map Prod.fst).Nodup := by
  rw [addToGroups_keys]
  by_cases hm : edgeKey e ∈ bs.map Prod.fst
  · simpa [hm] using h
  · rw [if_neg hm]
    rw [List.nodup_append]
    refine ⟨h, List.nodup_singleton _, ?_⟩
    intro x hx hx2
    rw [List.mem_singleton] at hx2
    subst hx2
    exact hm hx

theorem foldl_addToGroups_inv :
    ∀ (l : List Edge) (bs : List (String × List Edge)),
      HomogBuckets bs → (bs.map Prod.fst).Nodup →
      HomogBuckets (l.foldl addToGroups bs) ∧ ((l.foldl addToGroups bs).map Prod.fst).Nodup := by
  intro l
  induction l with
  | nil => intro bs h1 h2; exact ⟨h1, h2⟩
  | cons e l ih =>
    intro bs h1 h2
    exact ih (addToGroups bs e) (addToGroups_homog e h1) (addToGroups_nodup_keys e h2)

theorem regroup_buckets :
    ∀ (bs : List (String × List Edge)), HomogBuckets bs → (bs.map Prod.fst).Nodup →
      List.foldl addToGroups [] ((bs.map Prod.snd).flatten) = bs := by
  intro bs
  induction bs with
  | nil => intro _ _; rfl
  | cons q rest ih =>
    obtain ⟨k, es⟩ := q
    intro h1 h2
    obtain ⟨hne, hkeys⟩ := h1 (k, es) (List.mem_cons_self _ _)
    have h2k : k ∉ rest.map Prod.fst ∧ (rest.map Prod.fst).Nodup :=
      List.nodup_cons.mp (by simpa using h2)
    simp only [List.map_cons, List.flatten_cons]
    rw [List.foldl_append]
    have hes1 : List.foldl addToGroups [] es = [(k, es)] := by
      cases es with
      | nil => exact absurd rfl hne
      | cons e0 es' =>
        simp only [List.foldl_cons, addToGroups]
        have hk0 : edgeKey e0 = k := hkeys e0 (List.mem_cons_self _ _)
        rw [hk0]
        rw [foldl_addToGroups_homog_key k es' [e0] []
          (fun x hx => hkeys x (List.mem_cons_of_mem _ hx))]
        simp
    rw [hes1]
    have hother : ∀ x ∈ (rest.map Prod.snd).flatten, edgeKey x ≠ k := by
      intro x hx
      rw [List.mem_flatten] at hx
      obtain ⟨lx, hlx, hxl⟩ := hx
      rw [List.mem_map] at hlx
      obtain ⟨p, hp, hpeq⟩ := hlx
      have hxkey := (h1 p (List.mem_cons_of_mem _ hp)).2 x (hpeq ▸ hxl)
      rw [hxkey]
      intro hcon
      exact h2k.1 (hcon ▸ List.mem_map_of_mem Prod.fst hp)
    rw [foldl_addToGroups_notin_key k es _ [] hother]
    congr 1
    exact ih (fun p hp => h1 p (List.mem_cons_of_mem _ hp)) h2k.2

/-- C8: `group_edges_by_origin_and_label` is idempotent: for every input list
of edges, flattening the returned groups into one sequence and grouping that
sequence again yields the very same list of groups (so in particular an
equivalent partition, with identical group memberships and even identical
group order). -/
theorem C8_grouping_idempotent (edges : List Edge) :
    group_edges_by_origin_and_label ((group_edges_by_origin_and_label edges).flatten) =
      group_edges_by_origin_and_label edges := by
  have hinv := foldl_addToGroups_inv edges []
    (by intro p hp; exact absurd hp (List.not_mem_nil p)) (by simp)
  unfold group_edges_by_origin_and_label
  rw [regroup_buckets (edges.foldl addToGroups []) hinv.1 hinv.2]

/-! Helper lemmas about the main rendering loop. -/

theorem stepBody_ctrl {σ : Type} (g : LocalGraph) (strat : σ → List Edge → σ)
    (s : LoopState σ) : (stepBody g strat s).ctrl = ctrlStep g s.ctrl := rfl

theorem ctrlStep_loops (g : LocalGraph) (c : ControlState) :
    (ctrlStep g c).loops = c.loops + 1 := rfl

theorem renderLoopAux_loops_le {σ : Type} (g : LocalGraph) (strat : σ → List Edge → σ) :
    ∀ (f : Nat) (s : LoopState σ), s.ctrl.loops < MAX_NUMBER_OF_LOOPS →
      (renderLoopAux g strat f s).1.ctrl.loops ≤ MAX_NUMBER_OF_LOOPS := by
  intro f
  induction f with
  | zero =>
    intro s h
    simp only [renderLoopAux]
    exact Nat.le_of_lt h
  | succ f ih =>
    intro s h
    simp only [renderLoopAux]
    by_cases he : s.ctrl.edgesToRender.isEmpty
    · simp only [he, if_true]
      exact Nat.le_of_lt h
    · simp only [he, Bool.false_eq_true, if_false]
      have hstep : (stepBody g strat s).ctrl.loops = s.ctrl.loops + 1 := rfl
      by_cases hb : MAX_NUMBER_OF_LOOPS ≤ (stepBody g strat s).ctrl.loops
      · simp only [hb, if_true]
        rw [hstep]
        exact Nat.succ_le_of_lt h
      · simp only [hb, if_false]
        exact ih (stepBody g strat s) (Nat.lt_of_not_le hb)

theorem renderLoopAux_warned_of_pending {σ : Type} (g : LocalGraph)
    (strat : σ → List Edge → σ) :
    ∀ (f : Nat) (s : LoopState σ), s.ctrl.loops < MAX_NUMBER_OF_LOOPS →
      MAX_NUMBER_OF_LOOPS ≤ f + s.ctrl.loops →
      (renderLoopAux g strat f s).1.ctrl.edgesToRender ≠ [] →
      (renderLoopAux g strat f s).2 = true := by
  intro f
  induction f with
  | zero =>
    intro s h1 h2 _
    exact absurd h2 (Nat.not_le_of_lt (by simpa using h1))
  | succ f ih =>
    intro s h1 h2 h3
    simp only [renderLoopAux] at h3 ⊢
    by_cases he : s.ctrl.edgesToRender.isEmpty
    · simp only [he, if_true] at h3
      exact absurd (List.isEmpty_iff.mp he) h3
    · simp only [he, Bool.false_eq_true, if_false] at h3 ⊢
      have hstep : (stepBody g strat s).ctrl.loops = s.ctrl.loops + 1 := rfl
      by_cases hb : MAX_NUMBER_OF_LOOPS ≤ (stepBody g strat s).ctrl.loops
      · simp only [hb, if_true]
      · simp only [hb, if_false] at h3 ⊢
        refine ih (stepBody g strat s) (Nat.lt_of_not_le hb) ?_ h3
        rw [hstep]
        omega

theorem renderLoopAux_of_empty {σ : Type} (g : LocalGraph) (strat : σ → List Edge → σ) :
    ∀ (f : Nat) (s : LoopState σ), s.ctrl.edgesToRender = [] →
      renderLoopAux g strat f s = (s, false) := by
  intro f
  cases f with
  | zero => intro s _; rfl
  | succ f =>
    intro s h
    simp only [renderLoopAux, h, List.isEmpty_nil, if_true]

theorem renderLoopAux_ctrl_congr {σ₁ σ₂ : Type} (g : LocalGraph)
    (strat₁ : σ₁ → List Edge → σ₁) (strat₂ : σ₂ → List Edge → σ₂) :
    ∀ (f : Nat) (s₁ : LoopState σ₁) (s₂ : LoopState σ₂), s₁.ctrl = s₂.ctrl →
      (renderLoopAux g strat₁ f s₁).1.ctrl = (renderLoopAux g strat₂ f s₂).1.ctrl ∧
      (renderLoopAux g strat₁ f s₁).2 = (renderLoopAux g strat₂ f s₂).2 := by
  intro f
  induction f with
  | zero =>
    intro s₁ s₂ h
    simp only [renderLoopAux]
    exact ⟨h, trivial⟩
  | succ f ih =>
    intro s₁ s₂ h
    have hstep : (stepBody g strat₁ s₁).ctrl = (stepBody g strat₂ s₂).ctrl := by
      rw [stepBody_ctrl, stepBody_ctrl, h]
    simp only [renderLoopAux]
    by_cases he : s₁.ctrl.edgesToRender.isEmpty
    · have he2 : s₂.ctrl.edgesToRender.isEmpty := h ▸ he
      simp only [he, he2, if_true]
      exact ⟨h, trivial⟩
    · have he2 : ¬s₂.ctrl.edgesToRender.isEmpty := by rw [← h]; exact he
      simp only [he, he2, Bool.false_eq_true, if_false]
      by_cases hb : MAX_NUMBER_OF_LOOPS ≤ (stepBody g strat₁ s₁).ctrl.loops
      · have hb2 : MAX_NUMBER_OF_LOOPS ≤ (stepBody g strat₂ s₂).ctrl.loops := by
          rw [← hstep]; exact hb
        simp only [hb, hb2, if_true]
        exact ⟨hstep, trivial⟩
      · have hb2 : ¬MAX_NUMBER_OF_LOOPS ≤ (stepBody g strat₂ s₂).ctrl.loops := by
          rw [← hstep]; exact hb
        simp only [hb, hb2, if_false]
        exact ih (stepBody g strat₁ s₁) (stepBody g strat₂ s₂) hstep

/-! Claim theorems. -/

/-- C1: the claim says distinct (origin, label) keys are never placed in the
same group.  The code keys buckets on the hash of the concatenated string of
origin and label (renderer.py line 106), so the edge with origin 1 and label
"2x" and the edge with origin 12 and label "x" produce the same key string
"12x" and are merged into a single group, although their (origin, label)
pairs differ.  This contradicts the code comment at line 50, which says the
function groups edges that have the same origin and label together. -/
theorem C1_encoding_collision_eval :
    group_edges_by_origin_and_label [⟨1, 0, "2x"⟩, ⟨12, 0, "x"⟩] =
      [[⟨1, 0, "2x"⟩, ⟨12, 0, "x"⟩]] ∧
    ¬((Edge.origin ⟨1, 0, "2x"⟩, Edge.label ⟨1, 0, "2x"⟩) =
      (Edge.origin ⟨12, 0, "x"⟩, Edge.label ⟨12, 0, "x"⟩)) := by
  decide

/-- C2: the claim says the cache slots of distinct vertices are independently
allocated, so a mutation through one slot leaves the others unchanged.  The
code initializes the cache as `[dict()] * n` (renderer.py line 37), which
repeats one reference to a single dict object: in a two-vertex cache, slot 1
starts empty, yet after writing the pair (k, x) through slot 0, reading slot 1
yields that pair. -/
theorem C2_shared_cache_eval :
    (initReplaceCache 2).read 1 = [] ∧
    ((initReplaceCache 2).write 0 "k" "x").read 1 = [("k", "x")] ∧
    (0 : Nat) ≠ 1 := by
  decide

/-- C3 counterexample: on the two-vertex cycle with no externally known value,
the claim says the main loop runs until the 50-iteration bound.  In fact both
vertices have out-degree 1, so the initial frontier, and with it the initial
pending set, is empty: the loop body runs zero times, the counter never reaches
the bound and the bound warning is never logged. -/
theorem C3_cycle_counterexample :
    (render_variables_from_local_graph twoCycle trivStrat ()).final.ctrl.loops = 0 ∧
    (render_variables_from_local_graph twoCycle trivStrat ()).final.ctrl.loops ≠
      MAX_NUMBER_OF_LOOPS ∧
    (render_variables_from_local_graph twoCycle trivStrat ()).warnedBound = false := by
  decide

/-- C3 amended: for the two-vertex cycle with no externally known value, the
initial pending set is empty, so the main loop body executes zero times and
the 50-iteration bound is never reached; no edge is ever recorded done, so
both vertices remain unresolved, and the engine still materializes the vertex
configurations and still invokes the fallback pass. -/
theorem C3_cycle_amended :
    initialPending twoCycle = [] ∧
    (render_variables_from_local_graph twoCycle trivStrat ()).final.ctrl.loops = 0 ∧
    (render_variables_from_local_graph twoCycle trivStrat ()).final.ctrl.done = [] ∧
    (render_variables_from_local_graph twoCycle trivStrat ()).warnedBound = false ∧
    (render_variables_from_local_graph twoCycle trivStrat ()).updatedConfigs = true ∧
    (render_variables_from_local_graph twoCycle trivStrat ()).fallbackInvoked = true := by
  decide

/-- C4 counterexample: the claim says a strategy failure is surfaced only
after all sibling groups of the same dispatch call have been attempted, in the
sequential path too.  In the sequential path a failure on the first of two
groups is surfaced while the second group was never attempted. -/
theorem C4_failfast_counterexample :
    (sequentialDispatch failStrat [[⟨0, 1, "a"⟩], [⟨2, 3, "b"⟩]]).2 = some "boom" ∧
    (sequentialDispatch failStrat [[⟨0, 1, "a"⟩], [⟨2, 3, "b"⟩]]).1 = [[⟨0, 1, "a"⟩]] ∧
    [(⟨2, 3, "b"⟩ : Edge)] ∉ (sequentialDispatch failStrat [[⟨0, 1, "a"⟩], [⟨2, 3, "b"⟩]]).1 := by
  decide

/-- C4 amended: in the sequential dispatch path, when the strategy fails on a
group, every group dispatched before it has already completed normally and
keeps its result, but the failure is surfaced immediately and the sibling
groups not yet dispatched are never attempted: fail-fast semantics, not
collect-and-raise. -/
theorem C4_sequential_failfast {ε : Type} (strat : List Edge → Except ε Unit)
    (pre : List (List Edge)) (gEdges : List Edge) (post : List (List Edge)) (err : ε)
    (hg : strat gEdges = Except.error err)
    (hpre : ∀ p ∈ pre, strat p = Except.ok ()) :
    sequentialDispatch strat (pre ++ gEdges :: post) = (pre ++ [gEdges], some err) := by
  revert hpre
  induction pre with
  | nil =>
    intro _
    have ht : edge_evaluation_task strat [gEdges] = Except.error err := by
      simp [edge_evaluation_task, hg]
    simp [sequentialDispatch, ht]
  | cons p pre ih =>
    intro hpre
    have hp : strat p = Except.ok () := hpre p (List.mem_cons_self _ _)
    have ht : edge_evaluation_task strat [p] = Except.ok p := by
      simp [edge_evaluation_task, hp]
    simp only [List.cons_append, sequentialDispatch, ht, List.append_eq]
    rw [ih (fun q hq => hpre q (List.mem_cons_of_mem _ hq))]

/-- Witness for C4 amended: a concrete three-group dispatch where the middle
group fails: the group before it completed, the failure is surfaced, and the
group after it was never attempted. -/
theorem C4_sequential_failfast_witness :
    failStrat [⟨0, 1, "a"⟩] = Except.error "boom" ∧
    (∀ p ∈ [[(⟨2, 3, "b"⟩ : Edge)]], failStrat p = Except.ok ()) ∧
    sequentialDispatch failStrat ([[⟨2, 3, "b"⟩]] ++ [⟨0, 1, "a"⟩] :: [[⟨4, 5, "c"⟩]]) =
      ([[⟨2, 3, "b"⟩]] ++ [[⟨0, 1, "a"⟩]], some "boom") :=
  have hpre : ∀ p ∈ [[(⟨2, 3, "b"⟩ : Edge)]], failStrat p = Except.ok () := by
    intro p hp
    rw [List.mem_singleton] at hp
    subst hp
    rfl
  ⟨rfl, hpre,
    C4_sequential_failfast failStrat [[⟨2, 3, "b"⟩]] [⟨0, 1, "a"⟩] [[⟨4, 5, "c"⟩]] "boom"
      rfl hpre⟩

/-- C5: for every graph and every evaluation strategy, the main rendering loop
executes its body at most `MAX_NUMBER_OF_LOOPS` = 50 times: the counter
`loops` is incremented exactly once per executed body, and the final counter
never exceeds the bound, so rendering terminates on every graph, cyclic or
not (the embedding is a total function). -/
theorem C5_iteration_bound (g : LocalGraph) {σ : Type}
    (strat : σ → List Edge → σ) (s0 : σ) :
    (render_variables_from_local_graph g strat s0).final.ctrl.loops ≤
      MAX_NUMBER_OF_LOOPS :=
  renderLoopAux_loops_le g strat MAX_NUMBER_OF_LOOPS (initLoopState g s0)
    (by show (0 : Nat) < 50; decide)

/-- C6: whenever a rendering pass ends with the iteration bound reached and
pending edges remaining, the bound warning was recorded, and the engine still
materialized the vertex configurations and still invoked the fallback pass;
the pass returns normally (the embedding is a total function, with no error
outcome). -/
theorem C6_nonconvergence_graceful (g : LocalGraph) {σ : Type}
    (strat : σ → List Edge → σ) (s0 : σ)
    (h1 : MAX_NUMBER_OF_LOOPS ≤
      (render_variables_from_local_graph g strat s0).final.ctrl.loops)
    (h2 : (render_variables_from_local_graph g strat s0).final.ctrl.edgesToRender ≠ []) :
    (render_variables_from_local_graph g strat s0).warnedBound = true ∧
    (render_variables_from_local_graph g strat s0).updatedConfigs = true ∧
    (render_variables_from_local_graph g strat s0).fallbackInvoked = true := by
  refine ⟨?_, rfl, rfl⟩
  exact renderLoopAux_warned_of_pending g strat MAX_NUMBER_OF_LOOPS (initLoopState g s0)
    (by show (0 : Nat) < 50; decide) (by show (50 : Nat) ≤ 50 + 0; decide) h2

set_option maxRecDepth 10000 in
/-- Evaluation helper: the 53-vertex chain stops at the 50-iteration bound. -/
theorem chain53_loops_eval :
    (render_variables_from_local_graph chain53 trivStrat ()).final.ctrl.loops = 50 := by
  decide

set_option maxRecDepth 10000 in
/-- Evaluation helper: the 53-vertex chain still has a pending edge when the
bound is reached. -/
theorem chain53_pending_eval :
    (render_variables_from_local_graph chain53 trivStrat ()).final.ctrl.edgesToRender =
      [⟨1, 2, ""⟩] := by
  decide

/-- Witness for C6: the 53-vertex chain reaches the bound with a pending edge
remaining, and the warning, the configuration materialization and the fallback
pass all happen. -/
theorem C6_nonconvergence_graceful_witness :
    MAX_NUMBER_OF_LOOPS ≤
      (render_variables_from_local_graph chain53 trivStrat ()).final.ctrl.loops ∧
    (render_variables_from_local_graph chain53 trivStrat ()).final.ctrl.edgesToRender ≠ [] ∧
    ((render_variables_from_local_graph chain53 trivStrat ()).warnedBound = true ∧
     (render_variables_from_local_graph chain53 trivStrat ()).updatedConfigs = true ∧
     (render_variables_from_local_graph chain53 trivStrat ()).fallbackInvoked = true) :=
  have h1 : MAX_NUMBER_OF_LOOPS ≤
      (render_variables_from_local_graph chain53 trivStrat ()).final.ctrl.loops :=
    le_of_eq chain53_loops_eval.symm
  have h2 : (render_variables_from_local_graph chain53 trivStrat ()).final.ctrl.edgesToRender
      ≠ [] := by
    rw [chain53_pending_eval]
    simp
  ⟨h1, h2, C6_nonconvergence_graceful chain53 trivStrat () h1 h2⟩

/-- C7: on the four-vertex chain where only the sink is known, the main loop
reaches an empty pending set and exits after exactly 3 iterations, without the
bound warning. -/
theorem C7_chain_converges_in_three :
    (render_variables_from_local_graph chain4 trivStrat ()).final.ctrl.loops = 3 ∧
    (render_variables_from_local_graph chain4 trivStrat ()).final.ctrl.edgesToRender = [] ∧
    (render_variables_from_local_graph chain4 trivStrat ()).warnedBound = false := by
  decide

/-- C9: in every iteration of the main loop, every edge of the pending set is
recorded as done for its origin vertex unconditionally, and the whole control
state of the pass (done set, frontier, pending set, loop count, dispatched
groups) is independent of the evaluation strategy and of its private state, so
an origin vertex is counted as fully resolved and added to the frontier no
matter what the strategy did for the groups of its edges. -/
theorem C9_done_recording_unconditional :
    (∀ (σ : Type) (g : LocalGraph) (strat : σ → List Edge → σ) (s : LoopState σ)
        (e : Edge), e ∈ s.ctrl.edgesToRender →
        e ∈ doneFor (stepBody g strat s).ctrl.done e.origin) ∧
    (∀ (σ₁ σ₂ : Type) (g : LocalGraph) (strat₁ : σ₁ → List Edge → σ₁)
        (strat₂ : σ₂ → List Edge → σ₂) (a : σ₁) (b : σ₂),
        (render_variables_from_local_graph g strat₁ a).final.ctrl =
          (render_variables_from_local_graph g strat₂ b).final.ctrl ∧
        (render_variables_from_local_graph g strat₁ a).warnedBound =
          (render_variables_from_local_graph g strat₂ b).warnedBound) := by
  constructor
  · intro σ g strat s e he
    show e ∈ doneFor (s.ctrl.done ++ s.ctrl.edgesToRender) e.origin
    rw [doneFor, List.mem_filter]
    exact ⟨List.mem_append.mpr (Or.inr he), by simp⟩
  · intro σ₁ σ₂ g strat₁ strat₂ a b
    exact renderLoopAux_ctrl_congr g strat₁ strat₂ MAX_NUMBER_OF_LOOPS
      (initLoopState g a) (initLoopState g b) rfl

/-- Witness for C9: on the four-vertex chain, the single initially pending
edge is recorded done for its origin after one loop body. -/
theorem C9_done_recording_unconditional_witness :
    (⟨2, 3, "x"⟩ : Edge) ∈ (initLoopState chain4 ()).ctrl.edgesToRender ∧
    (⟨2, 3, "x"⟩ : Edge) ∈
      doneFor (stepBody chain4 trivStrat (initLoopState chain4 ())).ctrl.done 2 :=
  ⟨by decide,
    C9_done_recording_unconditional.1 Unit chain4 trivStrat (initLoopState chain4 ())
      ⟨2, 3, "x"⟩ (by decide)⟩

/-- C10: when no vertex has out-degree 0 together with positive in-degree, the
initial pending set is empty and the loop body executes zero times: no edge
group is ever dispatched and the bound warning never fires, yet the engine
still materializes the vertex configurations and still invokes the fallback
pass. -/
theorem C10_no_initial_frontier (g : LocalGraph) {σ : Type}
    (strat : σ → List Edge → σ) (s0 : σ)
    (h : ∀ v, v < g.n → ¬(g.out_degree v = 0 ∧ 0 < g.in_degree v)) :
    initialPending g = [] ∧
    (render_variables_from_local_graph g strat s0).final.ctrl.loops = 0 ∧
    (render_variables_from_local_graph g strat s0).final.ctrl.dispatched = [] ∧
    (render_variables_from_local_graph g strat s0).warnedBound = false ∧
    (render_variables_from_local_graph g strat s0).updatedConfigs = true ∧
    (render_variables_from_local_graph g strat s0).fallbackInvoked = true := by
  have hV : initialEndVertices g = [] := by
    unfold initialEndVertices LocalGraph.get_vertices_with_degrees_conditions
    rw [List.filter_eq_nil_iff]
    intro v hv
    rw [List.mem_range] at hv
    simp only [Bool.and_eq_true, decide_eq_true_eq, not_and]
    intro h1 h2
    exact (h v hv) ⟨h1, h2⟩
  have hP : initialPending g = [] := by
    unfold initialPending
    rw [hV]
    rfl
  have hloop : renderLoopAux g strat MAX_NUMBER_OF_LOOPS (initLoopState g s0) =
      (initLoopState g s0, false) :=
    renderLoopAux_of_empty g strat MAX_NUMBER_OF_LOOPS (initLoopState g s0) hP
  refine ⟨hP, ?_, ?_, ?_, rfl, rfl⟩
  · show (renderLoopAux g strat MAX_NUMBER_OF_LOOPS (initLoopState g s0)).1.ctrl.loops = 0
    rw [hloop]
    rfl
  · show (renderLoopAux g strat MAX_NUMBER_OF_LOOPS
      (initLoopState g s0)).1.ctrl.dispatched = []
    rw [hloop]
    rfl
  · show (renderLoopAux g strat MAX_NUMBER_OF_LOOPS (initLoopState g s0)).2 = false
    rw [hloop]

/-- Witness for C10: the two-vertex cycle has no vertex with out-degree 0, so
its pass dispatches nothing and still runs the two post-loop steps. -/
theorem C10_no_initial_frontier_witness :
    (∀ v, v < twoCycle.n → ¬(twoCycle.out_degree v = 0 ∧ 0 < twoCycle.in_degree v)) ∧
    (initialPending twoCycle = [] ∧
     (render_variables_from_local_graph twoCycle trivStrat ()).final.ctrl.loops = 0 ∧
     (render_variables_from_local_graph twoCycle trivStrat ()).final.ctrl.dispatched = [] ∧
     (render_variables_from_local_graph twoCycle trivStrat ()).warnedBound = false ∧
     (render_variables_from_local_graph twoCycle trivStrat ()).updatedConfigs = true ∧
     (render_variables_from_local_graph twoCycle trivStrat ()).fallbackInvoked = true) :=
  ⟨by decide, C10_no_initial_frontier twoCycle trivStrat () (by decide)⟩

end Checkov
